import Mathlib

/-!
Verification development for the chronow messaging core.

The definitions below are a shallow embedding of the TypeScript source:
the codec helpers of src/core/codecs.ts, the key builder of
src/core/keys.ts, the backoff computation of src/core/time.ts, the
document-database emulation of the hot store in src/core/mongoAdapter.ts
(kv hashes, stream documents, consumer-group read, acknowledge, claim),
the producer, retry scheduler, dead-letter inspection and the per-message
consumer protocol.  Machine integers are modelled as Nat or as rationals
where jitter arithmetic matters; JavaScript exceptions are modelled with
Except; the external JSON.parse is an explicit function parameter.
-/

namespace Chronow

/-! Codec layer, from src/core/codecs.ts. -/

/-- JavaScript values that can appear after a JSON.parse attempt: the
parsed JSON value, or the raw string when parsing fails.  Strings embed
as jstr; jundef models the undefined read past the end of a flat array. -/
inductive JsonValue where
  | jstr (s : String) : JsonValue
  | jnum (n : Int) : JsonValue
  | jbool (b : Bool) : JsonValue
  | jnull : JsonValue
  | jundef : JsonValue
deriving DecidableEq

/-- The try JSON.parse / catch keep-the-string pattern of fromFlatArray. -/
def parseOrKeep (parse : String → Option JsonValue) (v : String) : JsonValue :=
  match parse v with
  | some j => j
  | none => JsonValue.jstr v

/-- toFlatArray on a string-valued map: each entry pushes key then value
(string values are pushed unchanged, the typeof v equals string branch). -/
def toFlatArray (obj : List (String × String)) : List String :=
  obj.foldr (fun kv acc => kv.1 :: kv.2 :: acc) []

/-- fromFlatArray: walk the array two slots at a time; each value is
JSON.parsed with fallback to the raw string.  An odd trailing key reads
an undefined value slot. -/
def fromFlatArray (parse : String → Option JsonValue) : List String → List (String × JsonValue)
  | [] => []
  | [k] => [(k, JsonValue.jundef)]
  | k :: v :: rest => (k, parseOrKeep parse v) :: fromFlatArray parse rest

/-- A sample parse function used to instantiate witnesses: recognises
only the JSON text 123. -/
def parseSample : String → Option JsonValue :=
  fun s => if s = "123" then some (JsonValue.jnum 123) else none

/-! Key builder, from src/core/keys.ts. -/

/-- The five key kinds of the namespacing scheme. -/
inductive Kind where
  | sm : Kind
  | topic : Kind
  | sub : Kind
  | retry : Kind
  | dlq : Kind
deriving DecidableEq

def kindStr : Kind → String
  | Kind.sm => "sm"
  | Kind.topic => "topic"
  | Kind.sub => "sub"
  | Kind.retry => "retry"
  | Kind.dlq => "dlq"

structure KeyParams where
  tenantId : String
  nspace : String
  kind : Kind
  name : String
deriving DecidableEq

/-- buildKey: keyPrefix then tenantId, namespace, kind and name joined
with colons. -/
def buildKey (params : KeyParams) (pfx : String) : String :=
  pfx ++ params.tenantId ++ ":" ++ params.nspace ++ ":" ++ kindStr params.kind ++ ":" ++ params.name

/-- buildRetryKey: a retry-kind key whose name is topic:subscription. -/
def buildRetryKey (topic subscription tenantId nspace pfx : String) : String :=
  buildKey ⟨tenantId, nspace, Kind.retry, topic ++ ":" ++ subscription⟩ pfx

/-- True when the string contains no colon. -/
def colonFree (s : String) : Bool :=
  s.data.all (fun c => c != ':')

/-! Backoff computation, from src/core/time.ts, and the retry score of
the scheduler.  Numbers are rationals; r is the value of Math.random(),
a parameter in the interval from zero inclusive to one exclusive. -/

/-- calculateBackoff: index min(attempt, length - 1); a zero or missing
slot falls back to the last element and then to 1000 (the JavaScript
falsy-or chain); jitter adds r times twenty percent of the base delay. -/
def calculateBackoff (attempt : Nat) (backoffMs : List ℚ) (jitter : Bool) (r : ℚ) : ℚ :=
  let idx := min attempt (backoffMs.length - 1)
  let base0 := backoffMs.getD idx 0
  let base1 := if base0 = 0 then backoffMs.getD (backoffMs.length - 1) 0 else base0
  let baseDelay := if base1 = 0 then 1000 else base1
  if jitter then baseDelay + r * (baseDelay * (2 / 10)) else baseDelay

/-- The sorted-set score written by scheduleRetry: now plus the jittered
backoff delay for this attempt. -/
def scheduleRetryScore (now : ℚ) (attempt : Nat) (backoffMs : List ℚ) (r : ℚ) : ℚ :=
  now + calculateBackoff attempt backoffMs true r

/-! Emulated kv hashes, from src/core/mongoAdapter.ts (hset / hget). -/

/-- A document of the kv collection as hget sees it: key, type tag and
the hash fields. -/
structure KvDoc where
  key : String
  type : String
  fields : List (String × String)
deriving DecidableEq

def lookupField (fields : List (String × String)) (field : String) : Option String :=
  (fields.find? (fun kv => kv.1 == field)).map (fun kv => kv.2)

/-- findOne with filter key equals fullKey and type equals hash. -/
def findOneHash (coll : List KvDoc) (fullKey : String) : Option KvDoc :=
  coll.find? (fun d => d.key == fullKey && d.type == "hash")

/-- hget: read one hash field; the JavaScript expression
doc fields field or-else null collapses a stored empty string to null. -/
def hget (coll : List KvDoc) (pfx key field : String) : Option String :=
  match findOneHash coll (pfx ++ key) with
  | none => none
  | some doc =>
    match lookupField doc.fields field with
    | none => none
    | some v => if v = "" then none else some v

/-! Emulated stream collection, from src/core/mongoAdapter.ts.  A stream
document carries the Mongo object id (oid), the stream key, the assigned
message id as the pair (timestamp, sequence), the fields, and the
pending map from group name to the map from consumer name to the
deliveredAt time. -/

structure MongoStreamDoc where
  oid : Nat
  stream : String
  id : Nat × Nat
  timestamp : Nat
  sequence : Nat
  fields : List (String × String)
  pending : List (String × List (String × Nat))
deriving DecidableEq

/-- The streams collection plus the allocator of Mongo object ids. -/
structure StreamsColl where
  docs : List MongoStreamDoc
  nextOid : Nat
deriving DecidableEq

/-- Count of documents of one stream carrying one timestamp, the
countDocuments call of xadd. -/
def countTs (docs : List MongoStreamDoc) (stream : String) (t : Nat) : Nat :=
  (docs.filter (fun d => d.stream == stream && d.timestamp == t)).length

/-- Ascending (timestamp, sequence) comparison used by the sort calls. -/
def docLe (d e : MongoStreamDoc) : Bool :=
  d.timestamp < e.timestamp || (d.timestamp == e.timestamp && d.sequence ≤ e.sequence)

def insertByTs (d : MongoStreamDoc) : List MongoStreamDoc → List MongoStreamDoc
  | [] => [d]
  | e :: rest => if docLe d e then d :: e :: rest else e :: insertByTs d rest

/-- Sort by (timestamp, sequence) ascending. -/
def sortByTs : List MongoStreamDoc → List MongoStreamDoc
  | [] => []
  | d :: rest => insertByTs d (sortByTs rest)

/-- Lookup of the pending subdocument of one group. -/
def pendingGet (p : List (String × List (String × Nat))) (g : String) :
    Option (List (String × Nat)) :=
  (p.find? (fun e => e.1 == g)).map (fun e => e.2)

/-- Mongo set of the path pending.group.consumer inside one group
subdocument: replaces the consumer entry when present, else adds it,
keeping every other consumer entry. -/
def setConsumer (l : List (String × Nat)) (c : String) (t : Nat) : List (String × Nat) :=
  if l.any (fun e => e.1 == c) then l.map (fun e => if e.1 == c then (c, t) else e)
  else l ++ [(c, t)]

/-- Mongo set of pending.group.consumer at the document level: creates
the group subdocument when missing. -/
def pendingSet (p : List (String × List (String × Nat))) (g c : String) (t : Nat) :
    List (String × List (String × Nat)) :=
  if p.any (fun e => e.1 == g) then p.map (fun e => if e.1 == g then (g, setConsumer e.2 c t) else e)
  else p ++ [(g, [(c, t)])]

/-- Mongo unset of pending.group: drops the whole group subdocument. -/
def pendingUnset (p : List (String × List (String × Nat))) (g : String) :
    List (String × List (String × Nat)) :=
  p.filter (fun e => e.1 != g)

def markPending (d : MongoStreamDoc) (g c : String) (now : Nat) : MongoStreamDoc :=
  { d with pending := pendingSet d.pending g c now }

/-- xadd after argument parsing: now is the Date.now() reading, fields
the parsed field pairs, maxlen the parsed MAXLEN argument (none when
absent; the JavaScript if maxlen test skips the trim when it is zero).
The sequence is the count of existing documents of the stream with the
same timestamp; the returned id is (now, sequence).  When the stream
exceeds maxlen after the insert, the oldest surplus documents by
(timestamp, sequence) are deleted. -/
def xadd (st : StreamsColl) (stream : String) (now : Nat) (fields : List (String × String))
    (maxlen : Option Nat) : StreamsColl × (Nat × Nat) :=
  let count := countTs st.docs stream now
  let doc : MongoStreamDoc := ⟨st.nextOid, stream, (now, count), now, count, fields, []⟩
  let docs1 := st.docs ++ [doc]
  let docs2 :=
    match maxlen with
    | none => docs1
    | some m =>
      if m = 0 then docs1
      else
        let total := (docs1.filter (fun d => d.stream == stream)).length
        if m < total then
          let old := (sortByTs (docs1.filter (fun d => d.stream == stream))).take (total - m)
          docs1.filter (fun d => !(old.any (fun o => o.oid == d.oid)))
        else docs1
  (⟨docs2, st.nextOid + 1⟩, (now, count))

/-- xreadgroup with start-id the greater-than marker, non-blocking
branch: select the documents of the stream whose pending.group is not
set, oldest first up to count, and mark each one pending for this group
and consumer at time now.  Returns each id with the flattened fields. -/
def xreadgroup (st : StreamsColl) (stream group consumer : String) (count : Nat) (now : Nat) :
    StreamsColl × List ((Nat × Nat) × List String) :=
  let q := st.docs.filter (fun d => d.stream == stream && (pendingGet d.pending group).isNone)
  let msgs := (sortByTs q).take count
  let docs2 := st.docs.map (fun d =>
    if msgs.any (fun m => m.oid == d.oid) then markPending d group consumer now else d)
  (⟨docs2, st.nextOid⟩, msgs.map (fun m => (m.id, toFlatArray m.fields)))

/-- updateOne for xack: unset pending.group on the first document of the
stream carrying this id. -/
def ackFirst (stream group : String) (id : Nat × Nat) :
    List MongoStreamDoc → List MongoStreamDoc
  | [] => []
  | d :: rest =>
    if d.stream == stream && d.id == id then { d with pending := pendingUnset d.pending group } :: rest
    else d :: ackFirst stream group id rest

/-- xack: for each id unset pending.group; returns the id count. -/
def xack (st : StreamsColl) (stream group : String) (ids : List (Nat × Nat)) :
    StreamsColl × Nat :=
  (ids.foldl (fun acc id => ⟨ackFirst stream group id acc.docs, acc.nextOid⟩) st, ids.length)

/-- findOneAndUpdate for xclaim: set pending.group.consumer to now on
the first document of the stream carrying this id, returning the updated
document. -/
def claimFirst (stream group consumer : String) (id : Nat × Nat) (now : Nat) :
    List MongoStreamDoc → List MongoStreamDoc × Option MongoStreamDoc
  | [] => ([], none)
  | d :: rest =>
    if d.stream == stream && d.id == id then
      (markPending d group consumer now :: rest, some (markPending d group consumer now))
    else
      let r := claimFirst stream group consumer id now rest
      (d :: r.1, r.2)

/-- xclaim: for each id, set pending.group.consumer to now on the
matching document and collect it.  The minIdleTime argument is accepted
and, as in the source, never consulted. -/
def xclaim (st : StreamsColl) (stream group consumer : String) (minIdleTime : Nat)
    (ids : List (Nat × Nat)) (now : Nat) :
    StreamsColl × List ((Nat × Nat) × List String) :=
  ids.foldl
    (fun acc id =>
      let r := claimFirst stream group consumer id now acc.1.docs
      (⟨r.1, acc.1.nextOid⟩,
        acc.2 ++ (match r.2 with
          | some d => [(d.id, toFlatArray d.fields)]
          | none => [])))
    (st, [])

/-- Run a sequence of xadd calls without MAXLEN on one stream at the
given Date.now() readings, collecting the returned ids. -/
def xaddRun (stream : String) : List Nat → StreamsColl → List (Nat × Nat)
  | [], _ => []
  | t :: ts, st => (xadd st stream t [] none).2 :: xaddRun stream ts (xadd st stream t [] none).1

/-- Run a sequence of xadd calls with a fixed MAXLEN argument. -/
def xaddRunM (stream : String) (maxlen : Option Nat) : List Nat → StreamsColl → List (Nat × Nat)
  | [], _ => []
  | t :: ts, st =>
    (xadd st stream t [] maxlen).2 :: xaddRunM stream maxlen ts (xadd st stream t [] maxlen).1

/-- Strict order on message ids: lexicographic on (timestamp, sequence). -/
def idLt (a b : Nat × Nat) : Prop :=
  a.1 < b.1 ∨ (a.1 = b.1 ∧ a.2 < b.2)

instance (a b : Nat × Nat) : Decidable (idLt a b) :=
  inferInstanceAs (Decidable (a.1 < b.1 ∨ (a.1 = b.1 ∧ a.2 < b.2)))

/-! Producer, from the Producer class (publish and publishBatch). -/

/-- The utf-8 byte length of the JSON-encoded payload string, the
Buffer.byteLength computation. -/
def payloadBytes (payloadStr : String) : Nat :=
  payloadStr.utf8ByteSize

/-- The message text of the payload size error. -/
def payloadErr (pb maxP : Nat) : String :=
  "Payload exceeds max size: " ++ toString pb ++ " > " ++ toString maxP ++ " bytes"

/-- A topic-log entry as the producer appends it: the encoded payload,
the encoded headers and the recorded size (the hash and publishedAt
fields carry no information the claims touch). -/
structure StreamEntry where
  payload : String
  headers : String
  size : Nat
deriving DecidableEq

/-- Soft trim toward maxStreamLen: drop the oldest surplus entries. -/
def softTrim (maxStreamLen : Nat) (log : List StreamEntry) : List StreamEntry :=
  if maxStreamLen < log.length then log.drop (log.length - maxStreamLen) else log

/-- publish: reject when the encoded payload exceeds maxPayloadBytes,
leaving the log untouched; otherwise append the entry with soft trim. -/
def publish (maxP maxS : Nat) (log : List StreamEntry) (payloadStr headersStr : String) :
    List StreamEntry × Except String Unit :=
  if maxP < payloadBytes payloadStr then
    (log, Except.error (payloadErr (payloadBytes payloadStr) maxP))
  else
    (softTrim maxS (log ++ [⟨payloadStr, headersStr, payloadBytes payloadStr⟩]), Except.ok ())

/-- The queueing loop of publishBatch: size-check each message in order
while queueing its xadd onto the pipeline; the first oversize message
throws before the pipeline is executed. -/
def publishBatchGo (maxP : Nat) (queued : List (String × String)) :
    List (String × String) → Except String (List (String × String))
  | [] => Except.ok queued
  | m :: rest =>
    if maxP < payloadBytes m.1 then Except.error (payloadErr (payloadBytes m.1) maxP)
    else publishBatchGo maxP (queued ++ [m]) rest

/-- publishBatch: queue every message, then execute the pipeline,
appending each queued entry with soft trim.  A throw during queueing
reaches the caller before pipeline execution, so the log is untouched. -/
def publishBatch (maxP maxS : Nat) (log : List StreamEntry) (msgs : List (String × String)) :
    List StreamEntry × Except String Unit :=
  match publishBatchGo maxP [] msgs with
  | Except.error e => (log, Except.error e)
  | Except.ok queued =>
    (queued.foldl (fun lg m => softTrim maxS (lg ++ [⟨m.1, m.2, payloadBytes m.1⟩])) log,
      Except.ok ())

/-! Inspection operations: getStats of the TopicManager, getDlqLength
and peekDlq of the DlqManager.  Each takes the outcome of its single
hot-store read call as an Except value: an error models the store call
throwing. -/

/-- A value slot of a store reply array; undef models reading past the
end of the reply. -/
inductive StoreVal where
  | s (v : String) : StoreVal
  | n (v : Int) : StoreVal
  | undef : StoreVal
deriving DecidableEq

structure TopicStats where
  topic : String
  length : StoreVal
  groups : StoreVal
deriving DecidableEq

/-- getStats: on success read slots one and five of the xinfo reply; on
a store error return topic with zero length and zero groups. -/
def getStats (topic : String) (xinfoRes : Except String (List StoreVal)) : TopicStats :=
  match xinfoRes with
  | Except.ok info => ⟨topic, info.getD 1 StoreVal.undef, info.getD 5 StoreVal.undef⟩
  | Except.error _ => ⟨topic, StoreVal.n 0, StoreVal.n 0⟩

/-- getDlqLength: the xlen reply, or zero on a store error. -/
def getDlqLength (xlenRes : Except String Nat) : Nat :=
  match xlenRes with
  | Except.ok n => n
  | Except.error _ => 0

/-- Field decoding of peekDlq: pair up the flat field array, JSON-parsing
only the payload and headers values, keeping every other value as a
string. -/
def dlqFields (parse : String → Option JsonValue) : List String → List (String × JsonValue)
  | [] => []
  | [k] => [(k, JsonValue.jundef)]
  | k :: v :: rest =>
    (k, if k == "payload" || k == "headers" then parseOrKeep parse v else JsonValue.jstr v)
      :: dlqFields parse rest

/-- peekDlq: decode each xrange entry; on a store error return the empty
list. -/
def peekDlq (parse : String → Option JsonValue)
    (xrangeRes : Except String (List ((Nat × Nat) × List String))) :
    List ((Nat × Nat) × List (String × JsonValue)) :=
  match xrangeRes with
  | Except.error _ => []
  | Except.ok entries => entries.map (fun e => (e.1, dlqFields parse e.2))

/-! Per-message consumer protocol, from the Consumer class: the dispatch
step of the consume loop and the nack operation of the message handle,
specialised to one message id.  The pending flag mirrors whether
pending.group is set for this id on the emulated hot store, so a
delivery (a dispatch from xreadgroup with the greater-than start id) is
possible exactly when the flag is clear.  count is the deliveryCounts
entry of the id, zero standing for an absent entry. -/

inductive MsgEvent where
  | deliver : MsgEvent
  | nack (requeue : Bool) : MsgEvent
deriving DecidableEq

structure ConsumerMsgState where
  count : Nat
  pending : Bool
  dlqReasons : List String
  delivered : Nat
deriving DecidableEq

/-- The deliveries value read by nack: the deliveryCounts entry or-else
one. -/
def nackDeliveries (s : ConsumerMsgState) : Nat :=
  if s.count = 0 then 1 else s.count

/-- One event of the per-message protocol.  deliver is the dispatch of
the id by the read step: it requires the id not to be pending and
increments the delivery counter.  nack reads the deliveries value: at or
above maxDeliveries it sends the message to the dead-letter queue with
reason Max deliveries exceeded, acks the entry and deletes the counter;
below the cap with requeue it schedules a retry (a fresh log entry with
its own id) and acks the entry; otherwise it leaves the entry in
flight. -/
def consumerStep (maxDeliveries : Nat) (s : ConsumerMsgState) : MsgEvent → Option ConsumerMsgState
  | MsgEvent.deliver =>
    if s.pending then none
    else some ⟨s.count + 1, true, s.dlqReasons, s.delivered + 1⟩
  | MsgEvent.nack requeue =>
    if maxDeliveries ≤ nackDeliveries s then
      some ⟨0, false, s.dlqReasons ++ ["Max deliveries exceeded"], s.delivered⟩
    else if requeue then some ⟨s.count, false, s.dlqReasons, s.delivered⟩
    else some s

/-- The initial state of an id never seen by this process. -/
def consumerInit : ConsumerMsgState := ⟨0, false, [], 0⟩

def consumerRun (maxDeliveries : Nat) (s : ConsumerMsgState) :
    List MsgEvent → Option ConsumerMsgState
  | [] => some s
  | e :: evs =>
    match consumerStep maxDeliveries s e with
    | none => none
    | some s2 => consumerRun maxDeliveries s2 evs

/-- Execute a per-message event trace from the initial state. -/
def consumerExec (maxDeliveries : Nat) (evs : List MsgEvent) : Option ConsumerMsgState :=
  consumerRun maxDeliveries consumerInit evs

/-! Theorems. -/

/-- C9: hget returns null exactly when the hash document or the field is
absent, or when the stored field value is the empty string (the or-null
fallback treats the empty string as falsy), so a caller cannot tell an
empty-string field from a missing one. -/
theorem hget_null_iff (coll : List KvDoc) (pfx key field : String) :
    hget coll pfx key field = none ↔
      (findOneHash coll (pfx ++ key) = none ∨
        ∃ d, findOneHash coll (pfx ++ key) = some d ∧
          (lookupField d.fields field = none ∨ lookupField d.fields field = some "")) := by
  unfold hget
  cases h : findOneHash coll (pfx ++ key) with
  | none => simp [h]
  | some d =>
    cases h2 : lookupField d.fields field with
    | none => simp [h, h2]
    | some v =>
      by_cases hv : v = ""
      · subst hv
        simp [h, h2]
      · simp [h, h2, hv]

/-- C10: when the single hot-store read of an inspection operation
throws, getStats returns the topic with zero length and zero groups,
getDlqLength returns zero and peekDlq returns the empty list; each
operation is a pure function of its read result. -/
theorem inspection_error_defaults (topic e : String) (parse : String → Option JsonValue) :
    getStats topic (Except.error e) = ⟨topic, StoreVal.n 0, StoreVal.n 0⟩ ∧
      getDlqLength (Except.error e) = 0 ∧
      peekDlq parse (Except.error e) = [] :=
  ⟨rfl, rfl, rfl⟩

/-- C2: on the emulated hot store acknowledgement is not terminal: a
stream entry delivered by xreadgroup and then xacked matches the
greater-than query again (xack unsets pending.group, the very condition
the query selects on), so the same message id is returned by the next
xreadgroup of the same group. -/
theorem xack_not_terminal_on_emulated_store :
    (xreadgroup ((xadd ⟨[], 0⟩ "s" 1 [("payload", "p1")] none).1)
        "s" "g" "c" 10 100).2.map Prod.fst = [(1, 0)] ∧
    (xreadgroup ((xack ((xreadgroup ((xadd ⟨[], 0⟩ "s" 1 [("payload", "p1")] none).1)
          "s" "g" "c" 10 100).1) "s" "g" [(1, 0)]).1)
        "s" "g" "c" 10 200).2.map Prod.fst = [(1, 0)] := by
  constructor <;> decide

/-- C3: xclaim does not transfer the in-flight record: claiming an entry
held by consumer c1 for consumer c2 sets pending.group.c2 while leaving
pending.group.c1 in place, so the pair (group, message id) then has two
in-flight consumer entries. -/
theorem xclaim_keeps_old_consumer :
    ((xclaim ((xreadgroup ((xadd ⟨[], 0⟩ "s" 1 [] none).1) "s" "g" "c1" 10 10).1)
        "s" "g" "c2" 0 [(1, 0)] 100).1.docs.map (fun d => pendingGet d.pending "g")) =
      [some [("c1", 10), ("c2", 100)]] := by
  decide

/-- One step of the per-message protocol preserves the delivery-count
invariant: a non-pending id has count strictly below the cap, every id
has count at most the cap, and the total deliveries are bounded by the
current count plus the cap times the number of dead-letter emissions. -/
theorem consumerStep_inv (maxD : Nat) (hmax : 1 ≤ maxD) (s s2 : ConsumerMsgState) (e : MsgEvent)
    (h1 : s.pending = false → s.count < maxD) (h2 : s.count ≤ maxD)
    (h3 : s.delivered ≤ s.count + maxD * s.dlqReasons.length)
    (hstep : consumerStep maxD s e = some s2) :
    (s2.pending = false → s2.count < maxD) ∧ s2.count ≤ maxD ∧
      s2.delivered ≤ s2.count + maxD * s2.dlqReasons.length := by
  cases e with
  | deliver =>
    cases hsp : s.pending with
    | true => simp [consumerStep, hsp] at hstep
    | false =>
      simp [consumerStep, hsp] at hstep
      subst hstep
      refine ⟨?_, ?_, ?_⟩
      · intro hc
        cases hc
      · exact h1 hsp
      · show s.delivered + 1 ≤ s.count + 1 + maxD * s.dlqReasons.length
        generalize maxD * s.dlqReasons.length = P at h3 ⊢
        omega
  | nack rq =>
    by_cases hd : maxD ≤ nackDeliveries s
    · simp [consumerStep, hd] at hstep
      subst hstep
      refine ⟨fun _ => hmax, Nat.zero_le _, ?_⟩
      simp only [List.length_append, List.length_singleton, Nat.mul_succ, Nat.mul_add]
      have hcount : s.count ≤ maxD := h2
      omega
    · cases rq with
      | true =>
        simp [consumerStep, hd] at hstep
        subst hstep
        have hlt : s.count < maxD := by
          unfold nackDeliveries at hd
          by_cases hc : s.count = 0 <;> simp [hc] at hd <;> omega
        exact ⟨fun _ => hlt, h2, h3⟩
      | false =>
        simp [consumerStep, hd] at hstep
        subst hstep
        exact ⟨h1, h2, h3⟩

/-- Running a trace of the per-message protocol preserves the
delivery-count invariant. -/
theorem consumerRun_inv (maxD : Nat) (hmax : 1 ≤ maxD) :
    ∀ (evs : List MsgEvent) (s s2 : ConsumerMsgState),
      (s.pending = false → s.count < maxD) → s.count ≤ maxD →
      s.delivered ≤ s.count + maxD * s.dlqReasons.length →
      consumerRun maxD s evs = some s2 →
      (s2.pending = false → s2.count < maxD) ∧ s2.count ≤ maxD ∧
        s2.delivered ≤ s2.count + maxD * s2.dlqReasons.length := by
  intro evs
  induction evs with
  | nil =>
    intro s s2 h1 h2 h3 hrun
    simp [consumerRun] at hrun
    subst hrun
    exact ⟨h1, h2, h3⟩
  | cons e rest ih =>
    intro s s2 h1 h2 h3 hrun
    unfold consumerRun at hrun
    cases hstep : consumerStep maxD s e with
    | none => rw [hstep] at hrun; cases hrun
    | some smid =>
      rw [hstep] at hrun
      obtain ⟨g1, g2, g3⟩ := consumerStep_inv maxD hmax s smid e h1 h2 h3 hstep
      exact ih smid s2 g1 g2 g3 hrun

/-- C1 (amended): within one process, for every trace of deliveries and
nack calls on one message id, the deliveryCounts entry never exceeds
maxDeliveries, the number of deliveries is at most the count plus
maxDeliveries per dead-letter emitted (so at most maxDeliveries
deliveries occur between consecutive dead-letters of the id), and any
nack issued once the deliveries value has reached maxDeliveries sends
the message to the dead-letter queue with reason Max deliveries
exceeded, acks the entry and deletes the counter. -/
theorem nack_max_deliveries_dead_letters (maxD : Nat) (hmax : 1 ≤ maxD) (evs : List MsgEvent)
    (s : ConsumerMsgState) (hexec : consumerExec maxD evs = some s) :
    s.count ≤ maxD ∧ s.delivered ≤ s.count + maxD * s.dlqReasons.length ∧
      ∀ rq, maxD ≤ nackDeliveries s →
        consumerStep maxD s (MsgEvent.nack rq) =
          some ⟨0, false, s.dlqReasons ++ ["Max deliveries exceeded"], s.delivered⟩ := by
  obtain ⟨-, g2, g3⟩ :=
    consumerRun_inv maxD hmax evs consumerInit s (fun _ => hmax) (Nat.zero_le _)
      (Nat.zero_le _) hexec
  refine ⟨g2, g3, ?_⟩
  intro rq hge
  simp [consumerStep, hge]

/-- Witness for C1: after one delivery under a cap of one, nack
dead-letters the id and acks it. -/
theorem nack_max_deliveries_dead_letters_witness :
    consumerStep 1 ⟨1, true, [], 1⟩ (MsgEvent.nack true) =
      some ⟨0, false, ["Max deliveries exceeded"], 1⟩ :=
  (nack_max_deliveries_dead_letters 1 (by decide) [MsgEvent.deliver] ⟨1, true, [], 1⟩
      (by decide)).2.2 true (by decide)

/-- Counterexample for C1 as stated: with maxDeliveries one, the id is
delivered, nacked (which dead-letters it and acks it), and is then
delivered again: on the emulated hot store the ack makes the entry
readable once more, so a further redelivery of the id follows the
dead-letter within the same process. -/
theorem dead_letter_then_redelivered :
    consumerExec 1 [MsgEvent.deliver, MsgEvent.nack true] =
      some ⟨0, false, ["Max deliveries exceeded"], 1⟩ ∧
    consumerExec 1 [MsgEvent.deliver, MsgEvent.nack true, MsgEvent.deliver] =
      some ⟨1, true, ["Max deliveries exceeded"], 2⟩ := by
  constructor <;> decide

/-- The try-parse value equals the raw string exactly when parsing
fails, for any parse function that never returns its own input as a
parsed string (JSON string literals carry quotes, so JSON.parse has this
property). -/
theorem parseOrKeep_eq_jstr_iff (parse : String → Option JsonValue)
    (hq : ∀ s, parse s ≠ some (JsonValue.jstr s)) (v : String) :
    parseOrKeep parse v = JsonValue.jstr v ↔ parse v = none := by
  cases hp : parse v with
  | none => simp [parseOrKeep, hp]
  | some j =>
    simp only [parseOrKeep, hp]
    constructor
    · intro hj
      subst hj
      exact absurd hp (hq v)
    · intro hc
      cases hc

/-- C8: fromFlatArray after toFlatArray binds every key of a
string-valued map to the JSON.parse of its value when that value parses
and to the value itself otherwise; hence the round trip is the identity
exactly on the maps none of whose values parse as JSON. -/
theorem flat_array_roundtrip (parse : String → Option JsonValue) (m : List (String × String))
    (hq : ∀ s, parse s ≠ some (JsonValue.jstr s)) :
    fromFlatArray parse (toFlatArray m) = m.map (fun kv => (kv.1, parseOrKeep parse kv.2)) ∧
    (fromFlatArray parse (toFlatArray m) = m.map (fun kv => (kv.1, JsonValue.jstr kv.2)) ↔
      ∀ kv ∈ m, parse kv.2 = none) := by
  have heq : ∀ (mm : List (String × String)),
      fromFlatArray parse (toFlatArray mm) = mm.map (fun kv => (kv.1, parseOrKeep parse kv.2)) := by
    intro mm
    induction mm with
    | nil => rfl
    | cons kv rest ih =>
      show fromFlatArray parse (kv.1 :: kv.2 :: toFlatArray rest) = _
      simp only [fromFlatArray, List.map_cons]
      rw [ih]
  refine ⟨heq m, ?_⟩
  rw [heq m]
  induction m with
  | nil => simp
  | cons kv rest ih =>
    simp only [List.map_cons, List.cons.injEq, List.forall_mem_cons, Prod.mk.injEq, true_and]
    rw [parseOrKeep_eq_jstr_iff parse hq kv.2, ih]

/-- Witness for C8 at a concrete parse function and map: the value 123
comes back as the parsed number, the value x as the raw string. -/
theorem flat_array_roundtrip_witness :
    fromFlatArray parseSample (toFlatArray [("a", "123"), ("b", "x")]) =
      [("a", JsonValue.jnum 123), ("b", JsonValue.jstr "x")] := by
  have h := flat_array_roundtrip parseSample [("a", "123"), ("b", "x")] (by
    intro s hs
    by_cases h1 : s = "123" <;> simp [parseSample, h1] at hs)
  rw [h.1]
  decide

/-- String concatenation concatenates the character data. -/
theorem strData_append (s t : String) : (s ++ t).data = s.data ++ t.data := rfl

/-- A colon-separated concatenation with colon-free first components
splits uniquely. -/
theorem splitColon : ∀ (a c b d : List Char),
    a.all (fun x => x != ':') = true → c.all (fun x => x != ':') = true →
    a ++ ':' :: b = c ++ ':' :: d → a = c ∧ b = d := by
  intro a
  induction a with
  | nil =>
    intro c b d _ hc h
    cases c with
    | nil =>
      simp only [List.nil_append] at h
      injection h with h1 h2
      exact ⟨rfl, h2⟩
    | cons y c2 =>
      rw [List.all_cons, Bool.and_eq_true] at hc
      simp only [List.nil_append, List.cons_append] at h
      injection h with h1 h2
      exact absurd h1.symm (bne_iff_ne.mp hc.1)
  | cons x a2 ih =>
    intro c b d ha hc h
    rw [List.all_cons, Bool.and_eq_true] at ha
    cases c with
    | nil =>
      simp only [List.cons_append, List.nil_append] at h
      injection h with h1 h2
      exact absurd h1 (bne_iff_ne.mp ha.1)
    | cons y c2 =>
      rw [List.all_cons, Bool.and_eq_true] at hc
      simp only [List.cons_append] at h
      injection h with h1 h2
      obtain ⟨g1, g2⟩ := ih c2 b d ha.2 hc.2 h2
      exact ⟨by rw [h1, g1], g2⟩

/-- Every kind string is colon-free. -/
theorem kindStr_colonFree (k : Kind) : (kindStr k).data.all (fun c => c != ':') = true := by
  cases k <;> decide

/-- The five kind strings are pairwise distinct. -/
theorem kindStr_inj (k1 k2 : Kind) (h : (kindStr k1).data = (kindStr k2).data) : k1 = k2 := by
  cases k1 <;> cases k2 <;> revert h <;> decide

/-- Counterexample for C7 as stated: with tenant or namespace strings
that themselves contain colons, two keys of distinct kinds coincide. -/
theorem buildKey_kind_collision :
    buildKey ⟨"p:q:dlq:r", "s", Kind.sm, "t"⟩ "" = buildKey ⟨"p", "q", Kind.dlq, "r:s:sm:t"⟩ "" ∧
      Kind.sm ≠ Kind.dlq := by
  exact ⟨by decide, by decide⟩

/-- C7 (amended): under a common prefix, keys built with colon-free
tenant and namespace strings and two distinct kinds are never equal,
even when the name components contain colons (as the retry name
topic:subscription does). -/
theorem buildKey_no_kind_collision (pfx t1 n1 m1 t2 n2 m2 : String) (k1 k2 : Kind)
    (h1 : colonFree t1 = true) (h2 : colonFree n1 = true)
    (h3 : colonFree t2 = true) (h4 : colonFree n2 = true) (hk : k1 ≠ k2) :
    buildKey ⟨t1, n1, k1, m1⟩ pfx ≠ buildKey ⟨t2, n2, k2, m2⟩ pfx := by
  intro he
  apply hk
  have hd := congrArg String.data he
  have hcolon : (":" : String).data = [':'] := rfl
  simp only [buildKey, strData_append, hcolon, List.append_assoc, List.singleton_append] at hd
  have hd2 := List.append_cancel_left hd
  obtain ⟨-, hrest1⟩ := splitColon t1.data t2.data _ _ h1 h3 hd2
  obtain ⟨-, hrest2⟩ := splitColon n1.data n2.data _ _ h2 h4 hrest1
  obtain ⟨hkk, -⟩ := splitColon (kindStr k1).data (kindStr k2).data _ _
    (kindStr_colonFree k1) (kindStr_colonFree k2) hrest2
  exact kindStr_inj k1 k2 hkk

/-- Witness for C7 at concrete colon-free arguments. -/
theorem buildKey_no_kind_collision_witness :
    buildKey ⟨"a", "b", Kind.sm, "x"⟩ "cw:" ≠ buildKey ⟨"a", "b", Kind.topic, "x"⟩ "cw:" :=
  buildKey_no_kind_collision "cw:" "a" "b" "x" "a" "b" "x" Kind.sm Kind.topic
    (by decide) (by decide) (by decide) (by decide) (by decide)

/-- Membership survives the soft trim. -/
theorem softTrim_mem (maxS : Nat) (l : List StreamEntry) (a : StreamEntry)
    (h : a ∈ softTrim maxS l) : a ∈ l := by
  unfold softTrim at h
  split at h
  · exact List.drop_subset _ _ h
  · exact h

/-- Every message accepted by the queueing loop was already queued or
respects the payload bound. -/
theorem publishBatchGo_mem (maxP : Nat) :
    ∀ (msgs queued q : List (String × String)),
      publishBatchGo maxP queued msgs = Except.ok q →
      ∀ m ∈ q, m ∈ queued ∨ payloadBytes m.1 ≤ maxP := by
  intro msgs
  induction msgs with
  | nil =>
    intro queued q h m hm
    simp [publishBatchGo] at h
    subst h
    exact Or.inl hm
  | cons x rest ih =>
    intro queued q h m hm
    by_cases hc : maxP < payloadBytes x.1
    · simp [publishBatchGo, hc] at h
    · simp only [publishBatchGo, if_neg hc] at h
      rcases ih (queued ++ [x]) q h m hm with hin | hsz
      · rcases List.mem_append.mp hin with hqm | hx
        · exact Or.inl hqm
        · right
          rw [List.mem_singleton] at hx
          subst hx
          omega
      · exact Or.inr hsz

/-- An oversize message anywhere in the batch makes the queueing loop
throw. -/
theorem publishBatchGo_error (maxP : Nat) :
    ∀ (msgs queued : List (String × String)), (∃ m ∈ msgs, maxP < payloadBytes m.1) →
      ∃ e, publishBatchGo maxP queued msgs = Except.error e := by
  intro msgs
  induction msgs with
  | nil =>
    intro queued h
    obtain ⟨m, hm, -⟩ := h
    cases hm
  | cons x rest ih =>
    intro queued h
    by_cases hc : maxP < payloadBytes x.1
    · exact ⟨payloadErr (payloadBytes x.1) maxP, by simp [publishBatchGo, hc]⟩
    · obtain ⟨m, hm, hsz⟩ := h
      rcases List.mem_cons.mp hm with rfl | hm2
      · exact absurd hsz hc
      · obtain ⟨e, he⟩ := ih (queued ++ [x]) ⟨m, hm2, hsz⟩
        exact ⟨e, by simp [publishBatchGo, hc, he]⟩

/-- Pipeline execution of size-checked messages preserves the payload
bound of every log entry. -/
theorem batchFold_mem (maxP maxS : Nat) :
    ∀ (q : List (String × String)) (log : List StreamEntry),
      (∀ a ∈ log, a.size ≤ maxP) → (∀ m ∈ q, payloadBytes m.1 ≤ maxP) →
      ∀ a ∈ q.foldl (fun lg m => softTrim maxS (lg ++ [⟨m.1, m.2, payloadBytes m.1⟩])) log,
        a.size ≤ maxP := by
  intro q
  induction q with
  | nil =>
    intro log hlog _ a ha
    exact hlog a ha
  | cons x rest ih =>
    intro log hlog hq a ha
    rw [List.foldl_cons] at ha
    refine ih (softTrim maxS (log ++ [⟨x.1, x.2, payloadBytes x.1⟩])) ?_ ?_ a ha
    · intro b hb
      have hb2 := softTrim_mem maxS _ b hb
      rcases List.mem_append.mp hb2 with hbl | hbx
      · exact hlog b hbl
      · rw [List.mem_singleton] at hbx
        subst hbx
        exact hq x (List.mem_cons_self x rest)
    · intro mm hmm
      exact hq mm (List.mem_cons_of_mem x hmm)

/-- C5: an oversize publish fails with the payload size error and leaves
the log untouched; an oversize message anywhere in a batch fails the
whole batch before the pipeline runs, leaving the log untouched; and
both operations preserve the invariant that every log entry respects
maxPayloadBytes. -/
theorem payload_bound (maxP maxS : Nat) (log : List StreamEntry) (p hs : String)
    (msgs : List (String × String)) :
    (maxP < payloadBytes p →
      publish maxP maxS log p hs = (log, Except.error (payloadErr (payloadBytes p) maxP))) ∧
    ((∃ m ∈ msgs, maxP < payloadBytes m.1) →
      ∃ e, publishBatch maxP maxS log msgs = (log, Except.error e)) ∧
    ((∀ a ∈ log, a.size ≤ maxP) → ∀ log2 r, publish maxP maxS log p hs = (log2, r) →
      ∀ a ∈ log2, a.size ≤ maxP) ∧
    ((∀ a ∈ log, a.size ≤ maxP) → ∀ log2 r, publishBatch maxP maxS log msgs = (log2, r) →
      ∀ a ∈ log2, a.size ≤ maxP) := by
  refine ⟨?_, ?_, ?_, ?_⟩
  · intro hover
    simp [publish, hover]
  · intro hex
    obtain ⟨e, he⟩ := publishBatchGo_error maxP msgs [] hex
    exact ⟨e, by simp [publishBatch, he]⟩
  · intro hlog log2 r heq a ha
    by_cases hc : maxP < payloadBytes p
    · unfold publish at heq
      rw [if_pos hc] at heq
      have hfst := congrArg Prod.fst heq
      simp at hfst
      subst hfst
      exact hlog a ha
    · unfold publish at heq
      rw [if_neg hc] at heq
      have hfst := congrArg Prod.fst heq
      simp at hfst
      subst hfst
      have ha2 := softTrim_mem maxS _ a ha
      rcases List.mem_append.mp ha2 with hal | hax
      · exact hlog a hal
      · rw [List.mem_singleton] at hax
        subst hax
        show payloadBytes p ≤ maxP
        omega
  · intro hlog log2 r heq a ha
    cases hgo : publishBatchGo maxP [] msgs with
    | error e =>
      unfold publishBatch at heq
      rw [hgo] at heq
      have hfst := congrArg Prod.fst heq
      simp at hfst
      subst hfst
      exact hlog a ha
    | ok queued =>
      unfold publishBatch at heq
      rw [hgo] at heq
      have hfst := congrArg Prod.fst heq
      simp at hfst
      subst hfst
      refine batchFold_mem maxP maxS queued log hlog ?_ a ha
      intro m hm
      rcases publishBatchGo_mem maxP msgs [] queued hgo m hm with h0 | h0
      · cases h0
      · exact h0

/-- Witness for C5: a five-byte payload against a four-byte limit is
rejected with the log left empty. -/
theorem payload_bound_witness :
    publish 4 100 [] "hello" "hh" = ([], Except.error (payloadErr (payloadBytes "hello") 4)) :=
  (payload_bound 4 100 [] "hello" "hh" []).1 (by decide)

/-- With a nonempty all-positive backoff list, the jittered backoff is
the slot at index min(attempt, length - 1) plus r times twenty percent
of it. -/
theorem calculateBackoff_jitter_eq (attempt : Nat) (backoffMs : List ℚ) (r : ℚ)
    (hne : backoffMs ≠ []) (hpos : ∀ b ∈ backoffMs, 0 < b) :
    calculateBackoff attempt backoffMs true r =
      backoffMs.getD (min attempt (backoffMs.length - 1)) 0 +
        r * (backoffMs.getD (min attempt (backoffMs.length - 1)) 0 * (2 / 10)) := by
  have hlen : 0 < backoffMs.length := List.length_pos.mpr hne
  have hidx : min attempt (backoffMs.length - 1) < backoffMs.length := by omega
  have hmem : backoffMs.getD (min attempt (backoffMs.length - 1)) 0 ∈ backoffMs := by
    rw [List.getD_eq_getElem backoffMs 0 hidx]
    exact List.getElem_mem hidx
  have hb : 0 < backoffMs.getD (min attempt (backoffMs.length - 1)) 0 := hpos _ hmem
  have hb2 : backoffMs[min attempt (backoffMs.length - 1)]?.getD 0 ≠ 0 := by
    rw [← List.getD_eq_getElem?_getD]
    exact hb.ne'
  simp [calculateBackoff, hb2]

/-- C4 (amended): every scheduled retry delay (the score written by
scheduleRetry minus the scheduling time) lies between
backoff[min(attempt, len - 1)] and 1.2 times that slot, for every jitter
value r in the interval from zero inclusive to one exclusive — the slot
index is min(attempt, len - 1), not min(attempt - 1, len - 1). -/
theorem retry_backoff_bounds (now : ℚ) (attempt : Nat) (backoffMs : List ℚ) (r : ℚ)
    (hne : backoffMs ≠ []) (hpos : ∀ b ∈ backoffMs, 0 < b) (hr0 : 0 ≤ r) (hr1 : r < 1) :
    backoffMs.getD (min attempt (backoffMs.length - 1)) 0 ≤
      scheduleRetryScore now attempt backoffMs r - now ∧
    scheduleRetryScore now attempt backoffMs r - now ≤
      (12 / 10) * backoffMs.getD (min attempt (backoffMs.length - 1)) 0 := by
  have hlen : 0 < backoffMs.length := List.length_pos.mpr hne
  have hidx : min attempt (backoffMs.length - 1) < backoffMs.length := by omega
  have hmem : backoffMs.getD (min attempt (backoffMs.length - 1)) 0 ∈ backoffMs := by
    rw [List.getD_eq_getElem backoffMs 0 hidx]
    exact List.getElem_mem hidx
  have hb : 0 < backoffMs.getD (min attempt (backoffMs.length - 1)) 0 := hpos _ hmem
  have hdel : scheduleRetryScore now attempt backoffMs r - now =
      backoffMs.getD (min attempt (backoffMs.length - 1)) 0 * (1 + r * (2 / 10)) := by
    unfold scheduleRetryScore
    rw [calculateBackoff_jitter_eq attempt backoffMs r hne hpos]
    ring
  rw [hdel]
  constructor
  · nlinarith [mul_nonneg hr0 hb.le]
  · nlinarith [mul_nonneg hr0 hb.le, mul_lt_mul_of_pos_right hr1 hb]

/-- Witness for C4 at attempt one over the backoff list of the spec
scenarios with jitter one half. -/
theorem retry_backoff_bounds_witness :
    ([100, 200, 400] : List ℚ).getD (min 1 (([100, 200, 400] : List ℚ).length - 1)) 0 ≤
      scheduleRetryScore 7 1 [100, 200, 400] (1 / 2) - 7 ∧
    scheduleRetryScore 7 1 [100, 200, 400] (1 / 2) - 7 ≤
      (12 / 10) * ([100, 200, 400] : List ℚ).getD (min 1 (([100, 200, 400] : List ℚ).length - 1)) 0 :=
  retry_backoff_bounds 7 1 [100, 200, 400] (1 / 2) (by simp)
    (by
      intro b hb
      simp only [List.mem_cons, List.not_mem_nil, or_false] at hb
      rcases hb with rfl | rfl | rfl <;> norm_num)
    (by norm_num) (by norm_num)

/-- Counterexample for C4 as stated: at attempt 1 with backoff list
100, 200, 400 and zero jitter the scheduled delay is 200, which exceeds
1.2 times backoff[min(attempt - 1, len - 1)] = 1.2 times 100 = 120. -/
theorem retry_backoff_claim_false :
    scheduleRetryScore 0 1 [100, 200, 400] 0 - 0 = 200 ∧
      ¬ (scheduleRetryScore 0 1 [100, 200, 400] 0 - 0 ≤ (12 / 10) * 100) := by
  constructor <;> norm_num [scheduleRetryScore, calculateBackoff]

/-- xadd without MAXLEN appends one document carrying the next sequence
for its timestamp. -/
theorem xadd_none_eq (st : StreamsColl) (stream : String) (now : Nat)
    (fields : List (String × String)) :
    xadd st stream now fields none =
      (⟨st.docs ++ [⟨st.nextOid, stream, (now, countTs st.docs stream now), now,
          countTs st.docs stream now, fields, []⟩], st.nextOid + 1⟩,
        (now, countTs st.docs stream now)) := rfl

/-- Appending one document changes a timestamp count by at most one. -/
theorem countTs_append_one (docs : List MongoStreamDoc) (d : MongoStreamDoc)
    (stream : String) (t : Nat) :
    countTs (docs ++ [d]) stream t =
      countTs docs stream t + (if d.stream == stream && d.timestamp == t then 1 else 0) := by
  unfold countTs
  rw [List.filter_append, List.length_append]
  by_cases hc : (d.stream == stream && d.timestamp == t) = true
  · simp [List.filter_cons, hc]
  · simp [List.filter_cons, hc]

/-- Timestamp counts are monotone under append. -/
theorem countTs_le_append (docs : List MongoStreamDoc) (d : MongoStreamDoc)
    (stream : String) (t : Nat) :
    countTs docs stream t ≤ countTs (docs ++ [d]) stream t := by
  rw [countTs_append_one]
  exact Nat.le_add_right _ _

/-- Every id produced by later untrimmed appends at times at least t
dominates (t, c) whenever c is below the current count at t. -/
theorem xaddRun_lower (stream : String) :
    ∀ (ts : List Nat) (st : StreamsColl) (t c : Nat),
      c < countTs st.docs stream t → (∀ u ∈ ts, t ≤ u) →
      ∀ j ∈ xaddRun stream ts st, idLt (t, c) j := by
  intro ts
  induction ts with
  | nil =>
    intro st t c _ _ j hj
    simp [xaddRun] at hj
  | cons u ts2 ih =>
    intro st t c hc hall j hj
    rcases List.mem_cons.mp hj with rfl | hj2
    · show idLt (t, c) (u, countTs st.docs stream u)
      have htu : t ≤ u := hall u (List.mem_cons_self u ts2)
      rcases Nat.lt_or_ge t u with hlt | hge
      · exact Or.inl hlt
      · have heq : t = u := Nat.le_antisymm htu hge
        subst heq
        exact Or.inr ⟨rfl, hc⟩
    · refine ih (xadd st stream u [] none).1 t c ?_ ?_ j hj2
      · show c < countTs (st.docs ++ [⟨st.nextOid, stream,
          (u, countTs st.docs stream u), u, countTs st.docs stream u, [], []⟩]) stream t
        exact Nat.lt_of_lt_of_le hc (countTs_le_append _ _ _ _)
      · intro v hv
        exact hall v (List.mem_cons_of_mem u hv)

/-- Ids of an untrimmed append run at non-decreasing times are pairwise
strictly increasing. -/
theorem xaddRun_pairwise (stream : String) :
    ∀ (ts : List Nat) (st : StreamsColl), List.Pairwise (fun a b => a ≤ b) ts →
      List.Pairwise idLt (xaddRun stream ts st) := by
  intro ts
  induction ts with
  | nil =>
    intro st _
    simp [xaddRun]
  | cons u ts2 ih =>
    intro st hp
    rw [List.pairwise_cons] at hp
    rw [show xaddRun stream (u :: ts2) st =
        (xadd st stream u [] none).2 :: xaddRun stream ts2 (xadd st stream u [] none).1 from rfl]
    rw [List.pairwise_cons]
    constructor
    · intro j hj
      refine xaddRun_lower stream ts2 (xadd st stream u [] none).1 u
        (countTs st.docs stream u) ?_ hp.1 j hj
      show countTs st.docs stream u < countTs (st.docs ++ [⟨st.nextOid, stream,
        (u, countTs st.docs stream u), u, countTs st.docs stream u, [], []⟩]) stream u
      rw [countTs_append_one]
      simp
    · exact ih (xadd st stream u [] none).1 hp.2

/-- C6 (amended): starting from an empty collection, the ids returned by
successive xadd calls on one stream at non-decreasing clock readings,
with no MAXLEN trim, are strictly increasing in (timestamp, sequence)
order and pairwise distinct. -/
theorem xadd_ids_strictly_increasing (stream : String) (ts : List Nat)
    (hts : List.Pairwise (fun a b => a ≤ b) ts) :
    List.Pairwise idLt (xaddRun stream ts ⟨[], 0⟩) ∧
      List.Pairwise (fun a b => a ≠ b) (xaddRun stream ts ⟨[], 0⟩) := by
  have h := xaddRun_pairwise stream ts ⟨[], 0⟩ hts
  refine ⟨h, h.imp ?_⟩
  intro a b hab
  have hab2 : a.1 < b.1 ∨ (a.1 = b.1 ∧ a.2 < b.2) := hab
  intro heq
  subst heq
  rcases hab2 with hlt | ⟨-, hlt⟩ <;> exact absurd hlt (lt_irrefl _)

/-- Witness for C6 at three appends with times 1, 1, 2. -/
theorem xadd_ids_strictly_increasing_witness :
    List.Pairwise idLt (xaddRun "s" [1, 1, 2] ⟨[], 0⟩) ∧
      List.Pairwise (fun a b => a ≠ b) (xaddRun "s" [1, 1, 2] ⟨[], 0⟩) :=
  xadd_ids_strictly_increasing "s" [1, 1, 2] (by decide)

/-- Counterexample for C6 as stated: with MAXLEN 1, three appends in the
same millisecond return the ids (5,0), (5,1), (5,1) — the trim deletes a
same-timestamp document, the count is recomputed from the survivors, and
an id repeats. -/
theorem xadd_trim_duplicate_ids :
    xaddRunM "s" (some 1) [5, 5, 5] ⟨[], 0⟩ = [(5, 0), (5, 1), (5, 1)] ∧
      ¬ List.Pairwise (fun a b : Nat × Nat => a ≠ b) (xaddRunM "s" (some 1) [5, 5, 5] ⟨[], 0⟩) := by
  constructor <;> decide

end Chronow
